import Mathlib

/-!
Shallow embedding of the composition-time-to-sample box codec
(`src/mp4box/ctts.rs`) of the mp4 box library, together with the box
helpers the file uses.  Bytes are modelled as natural numbers below 256,
streams as a byte list plus a cursor position, machine integers as `Nat`
(resp. `Int`) with explicit `% 2 ^ w` wrapping where the code casts.
Fallible operations return `Except Mp4Error`.

The helpers `HEADER_SIZE`, `HEADER_EXT_SIZE`, `box_start`,
`read_box_header_ext`, `write_box_header_ext`, `skip_bytes_to` and the
box-header writer live outside the given source file; they are modelled
from the specification (its wire-format table and sections 4.1-4.3) and
are marked as such.
-/

namespace Ctts

/-- Error taxonomy of the codec, from the specification's section 7:
short reads, stream write failures, a declared size smaller than the
bytes already consumed, and a flags value wider than 24 bits. -/
inductive Mp4Error where
  | TruncatedStream
  | SizeMismatch
  | IoWriteError
  | FlagsOverflow
deriving DecidableEq, Repr

/-- Big-endian byte decomposition of a 32-bit word (the value is taken
modulo `2 ^ 32` by the per-byte `% 256`). -/
def u32be (v : Nat) : List Nat :=
  [v / 2 ^ 24 % 256, v / 2 ^ 16 % 256, v / 2 ^ 8 % 256, v % 256]

/-- Big-endian value of a byte list. -/
def beVal (bs : List Nat) : Nat :=
  bs.foldl (fun a b => a * 256 + b) 0

/-- Two's-complement encoding of a signed 32-bit value, as `write_i32`
emits it: the nonnegative representative of `v` modulo `2 ^ 32`. -/
def i32be (v : Int) : List Nat :=
  u32be (v % (2 ^ 32)).toNat

/-- Two's-complement reinterpretation of a 32-bit word as a signed
value, as `read_i32` performs it. -/
def decodeI32 (v : Nat) : Int :=
  if v < 2 ^ 31 then (v : Int) else (v : Int) - 2 ^ 32

/-- A seekable byte stream: the underlying bytes and the cursor. -/
structure ByteStream where
  data : List Nat
  pos : Nat
deriving DecidableEq, Repr

/-- `reader.read_u32::<BigEndian>()`: four bytes at the cursor,
big-endian; fails with `TruncatedStream` when fewer than four bytes
remain. -/
def readU32 (s : ByteStream) : Except Mp4Error (Nat × ByteStream) :=
  if s.pos + 4 ≤ s.data.length then
    .ok (beVal ((s.data.drop s.pos).take 4), ⟨s.data, s.pos + 4⟩)
  else
    .error .TruncatedStream

/-- `reader.read_i32::<BigEndian>()`: a `readU32` reinterpreted as a
signed two's-complement value. -/
def readI32 (s : ByteStream) : Except Mp4Error (Int × ByteStream) :=
  match readU32 s with
  | .error e => .error e
  | .ok (v, s1) => .ok (decodeI32 v, s1)

/-- Modelled from the spec: `HEADER_SIZE`, the byte length of the plain
box header (4-byte size, 4-byte tag; wire-format table of section 6). -/
def HEADER_SIZE : Nat := 8

/-- Modelled from the spec: `HEADER_EXT_SIZE`, the byte length of the
extended (version/flags) header of a full box. -/
def HEADER_EXT_SIZE : Nat := 4

/-- Modelled from the spec: `box_start` records the box's starting
offset.  The reader is positioned just after the already-consumed
8-byte box header, and the declared size counts from the box's first
byte, so the start is the cursor minus `HEADER_SIZE`. -/
def box_start (s : ByteStream) : Nat :=
  s.pos - HEADER_SIZE

/-- Modelled from the spec (section 4.2): read one 32-bit big-endian
word; the top 8 bits are the version, the low 24 bits the flags. -/
def read_box_header_ext (s : ByteStream) : Except Mp4Error (Nat × Nat × ByteStream) :=
  match readU32 s with
  | .error e => .error e
  | .ok (w, s1) => .ok (w / 2 ^ 24, w % 2 ^ 24, s1)

/-- Modelled from the spec (section 4.2): pack the version into the top
byte and the flags into the low 24 bits of one big-endian word; fails
with `FlagsOverflow` when the flags exceed 24 bits of magnitude. -/
def write_box_header_ext (version flags : Nat) : Except Mp4Error (List Nat) :=
  if flags < 2 ^ 24 then
    .ok (u32be (version * 2 ^ 24 + flags))
  else
    .error .FlagsOverflow

/-- Modelled from the spec (section 4.3): `skip_bytes_to` advances the
cursor to the absolute target position; a cursor already past the
target is an over-read of the declared size and fails with
`SizeMismatch`; a cursor at the target is left unchanged. -/
def skip_bytes_to (s : ByteStream) (target : Nat) : Except Mp4Error ByteStream :=
  if target < s.pos then
    .error .SizeMismatch
  else
    .ok ⟨s.data, target⟩

/-- Modelled from the spec (section 6): the fixed four-character ASCII
tag of the composition-time-to-sample box, the bytes of `"ctts"`. -/
def ctts_tag : List Nat := [99, 116, 116, 115]

/-- Modelled from the spec (section 4.1): `BoxHeader::new(t, size).write`
emits the 4-byte big-endian size then the 4-byte type tag. -/
def BoxHeader.write (size : Nat) : List Nat :=
  u32be size ++ ctts_tag

/-- `CttsEntry`: a run of `sample_count` consecutive samples (a `u32`)
sharing the signed 32-bit composition offset `sample_offset`. -/
structure CttsEntry where
  sample_count : Nat
  sample_offset : Int
deriving DecidableEq, Repr

/-- The range constraints the Rust field types `u32` and `i32` impose on
an entry. -/
def CttsEntry.Valid (e : CttsEntry) : Prop :=
  e.sample_count < 2 ^ 32 ∧ -2 ^ 31 ≤ e.sample_offset ∧ e.sample_offset < 2 ^ 31

instance (e : CttsEntry) : Decidable e.Valid := by
  unfold CttsEntry.Valid; infer_instance

/-- `CttsBox`: version (a `u8`), flags (low 24 bits of a `u32`), and the
ordered entry table. -/
structure CttsBox where
  version : Nat
  flags : Nat
  entries : List CttsEntry
deriving DecidableEq, Repr

/-- `CttsBox::get_size`:
`HEADER_SIZE + HEADER_EXT_SIZE + 4 + 8 * entries.len()`. -/
def CttsBox.get_size (b : CttsBox) : Nat :=
  HEADER_SIZE + HEADER_EXT_SIZE + 4 + 8 * b.entries.length

/-- `Mp4Box::box_size` for `CttsBox` forwards to `get_size`. -/
def CttsBox.box_size (b : CttsBox) : Nat :=
  b.get_size

/-- `CttsBox::summary`: the string `entries_count=<N>` with the decimal
entry count. -/
def CttsBox.summary (b : CttsBox) : Except Mp4Error String :=
  .ok ("entries_count=" ++ Nat.repr b.entries.length)

/-- The byte form of one entry as `write_box` emits it: big-endian
`sample_count` then big-endian two's-complement `sample_offset`. -/
def entryBytes (e : CttsEntry) : List Nat :=
  u32be e.sample_count ++ i32be e.sample_offset

/-- The byte form of the entry table, in table order. -/
def entriesBytes : List CttsEntry → List Nat
  | [] => []
  | e :: es => entryBytes e ++ entriesBytes es

/-- The entry-reading loop of `CttsBox::read_box`: read `n` pairs of
(`u32` sample count, `i32` sample offset), in stream order. -/
def readEntries : Nat → ByteStream → Except Mp4Error (List CttsEntry × ByteStream)
  | 0, s => .ok ([], s)
  | n + 1, s =>
    match readU32 s with
    | .error e => .error e
    | .ok (c, s1) =>
      match readI32 s1 with
      | .error e => .error e
      | .ok (o, s2) =>
        match readEntries n s2 with
        | .error e => .error e
        | .ok (es, s3) => .ok (⟨c, o⟩ :: es, s3)

/-- `CttsBox::read_box(reader, size)`: record the box start, read the
extended header, the 4-byte entry count, then that many entries, and
finally skip to `start + size`. -/
def CttsBox.read_box (s : ByteStream) (size : Nat) : Except Mp4Error (CttsBox × ByteStream) :=
  let start := box_start s
  match read_box_header_ext s with
  | .error e => .error e
  | .ok (version, flags, s1) =>
    match readU32 s1 with
    | .error e => .error e
    | .ok (entry_count, s2) =>
      match readEntries entry_count s2 with
      | .error e => .error e
      | .ok (entries, s3) =>
        match skip_bytes_to s3 (start + size) with
        | .error e => .error e
        | .ok s4 => .ok (⟨version, flags, entries⟩, s4)

/-- `CttsBox::write_box(writer)`: compute `size = box_size()`, write the
box header with that size, the extended header, the entry count cast
`entries.len() as u32` (i.e. modulo `2 ^ 32`), then every entry; return
`size`.  The produced value is the emitted byte sequence paired with
the returned size. -/
def CttsBox.write_box (b : CttsBox) : Except Mp4Error (List Nat × Nat) :=
  match write_box_header_ext b.version b.flags with
  | .error e => .error e
  | .ok ext =>
    .ok (BoxHeader.write b.box_size ++ ext ++
          u32be (b.entries.length % 2 ^ 32) ++ entriesBytes b.entries,
         b.box_size)

/-- The byte sequence a successful `write_box` emits. -/
def wbBytes (b : CttsBox) : List Nat :=
  BoxHeader.write b.box_size ++ u32be (b.version * 2 ^ 24 + b.flags) ++
    u32be (b.entries.length % 2 ^ 32) ++ entriesBytes b.entries

/-! Helper lemmas about the byte-level codecs. -/

lemma beVal_u32be (v : Nat) (hv : v < 2 ^ 32) : beVal (u32be v) = v := by
  simp [beVal, u32be, List.foldl]
  omega

lemma length_u32be (v : Nat) : (u32be v).length = 4 := rfl

lemma length_i32be (o : Int) : (i32be o).length = 4 := rfl

lemma length_entryBytes (e : CttsEntry) : (entryBytes e).length = 8 := rfl

lemma length_entriesBytes (es : List CttsEntry) :
    (entriesBytes es).length = 8 * es.length := by
  induction es with
  | nil => simp [entriesBytes]
  | cons e es ih =>
    simp only [entriesBytes, List.length_append, length_entryBytes, ih, List.length_cons]
    ring

lemma decodeI32_i32beVal (o : Int) (h1 : -2 ^ 31 ≤ o) (h2 : o < 2 ^ 31) :
    decodeI32 (beVal (i32be o)) = o := by
  unfold i32be
  rw [beVal_u32be _ (by omega)]
  unfold decodeI32
  split <;> omega

lemma take_append_ge (l1 l2 : List Nat) (k : Nat) (h : l1.length ≤ k) :
    (l1 ++ l2).take k = l1 ++ l2.take (k - l1.length) := by
  rw [List.take_append_eq_append_take, List.take_of_length_le h]

lemma readU32_at (data pre mid rest : List Nat) (p : Nat)
    (hd : data = pre ++ (mid ++ rest)) (hp : p = pre.length) (hm : mid.length = 4) :
    readU32 ⟨data, p⟩ = .ok (beVal mid, ⟨data, p + 4⟩) := by
  have hlen : p + 4 ≤ data.length := by
    subst hd; subst hp
    simp [List.length_append, hm]
  have h1 : (data.drop p).take 4 = mid := by
    subst hd; subst hp
    rw [List.drop_left, ← hm, List.take_left]
  unfold readU32
  rw [if_pos hlen, h1]

lemma readI32_at (data pre rest : List Nat) (o : Int) (p : Nat)
    (hd : data = pre ++ (i32be o ++ rest)) (hp : p = pre.length)
    (h1 : -2 ^ 31 ≤ o) (h2 : o < 2 ^ 31) :
    readI32 ⟨data, p⟩ = .ok (o, ⟨data, p + 4⟩) := by
  unfold readI32
  rw [readU32_at data pre (i32be o) rest p hd hp (length_i32be o)]
  simp only [decodeI32_i32beVal o h1 h2]

lemma readU32_short (s : ByteStream) (h : s.data.length < s.pos + 4) :
    readU32 s = .error .TruncatedStream := by
  unfold readU32
  rw [if_neg (by omega)]

lemma readEntries_succ (n : Nat) (s : ByteStream) :
    readEntries (n + 1) s =
      match readU32 s with
      | .error e => .error e
      | .ok (c, s1) =>
        match readI32 s1 with
        | .error e => .error e
        | .ok (o, s2) =>
          match readEntries n s2 with
          | .error e => .error e
          | .ok (es, s3) => .ok (⟨c, o⟩ :: es, s3) := rfl

lemma readEntries_ok (es : List CttsEntry) (hval : ∀ e ∈ es, e.Valid) :
    ∀ (data pre rest : List Nat) (p : Nat),
      data = pre ++ (entriesBytes es ++ rest) → p = pre.length →
      readEntries es.length ⟨data, p⟩ = .ok (es, ⟨data, p + 8 * es.length⟩) := by
  induction es with
  | nil =>
    intro data pre rest p hd hp
    simp [readEntries]
  | cons e es ih =>
    intro data pre rest p hd hp
    obtain ⟨hc, ho1, ho2⟩ := hval e (List.mem_cons_self e es)
    have hval2 : ∀ x ∈ es, x.Valid := fun x hx => hval x (List.mem_cons_of_mem e hx)
    have hd1 : data = pre ++ (u32be e.sample_count ++
        (i32be e.sample_offset ++ (entriesBytes es ++ rest))) := by
      simp [hd, entriesBytes, entryBytes, List.append_assoc]
    have hr1 := readU32_at data pre (u32be e.sample_count) _ p hd1 hp (length_u32be _)
    rw [beVal_u32be _ hc] at hr1
    have hd2 : data = (pre ++ u32be e.sample_count) ++
        (i32be e.sample_offset ++ (entriesBytes es ++ rest)) := by
      simp [hd, entriesBytes, entryBytes, List.append_assoc]
    have hp2 : p + 4 = (pre ++ u32be e.sample_count).length := by
      simp [hp, length_u32be]
    have hr2 := readI32_at data (pre ++ u32be e.sample_count) _ e.sample_offset
      (p + 4) hd2 hp2 ho1 ho2
    have hd3 : data = (pre ++ entryBytes e) ++ (entriesBytes es ++ rest) := by
      simp [hd, entriesBytes, entryBytes, List.append_assoc]
    have hp3 : p + 4 + 4 = (pre ++ entryBytes e).length := by
      simp [hp, length_entryBytes]
    have hr3 := ih hval2 data (pre ++ entryBytes e) rest (p + 4 + 4) hd3 hp3
    simp only [List.length_cons]
    rw [readEntries_succ]
    simp only [hr1, hr2, hr3]
    have harith : p + 4 + 4 + 8 * es.length = p + 8 * (es.length + 1) := by ring
    rw [harith]

lemma readEntries_short :
    ∀ (n : Nat) (s : ByteStream), 1 ≤ n → s.data.length < s.pos + 8 * n →
      readEntries n s = .error .TruncatedStream := by
  intro n
  induction n with
  | zero => intro s h1 _; omega
  | succ m ih =>
    intro s _ hlen
    by_cases h4 : s.pos + 4 ≤ s.data.length
    · have e1 : readU32 s = .ok (beVal ((s.data.drop s.pos).take 4), ⟨s.data, s.pos + 4⟩) := by
        unfold readU32
        rw [if_pos h4]
      by_cases h8 : s.pos + 4 + 4 ≤ s.data.length
      · have e2 : readI32 ⟨s.data, s.pos + 4⟩ =
            .ok (decodeI32 (beVal ((s.data.drop (s.pos + 4)).take 4)), ⟨s.data, s.pos + 4 + 4⟩) := by
          unfold readI32 readU32
          rw [if_pos (show s.pos + 4 + 4 ≤ s.data.length from h8)]
        cases m with
        | zero => omega
        | succ m2 =>
          have hrec := ih ⟨s.data, s.pos + 4 + 4⟩ (Nat.succ_le_succ (Nat.zero_le m2))
            (show s.data.length < s.pos + 4 + 4 + 8 * (m2 + 1) by omega)
          rw [readEntries_succ]
          simp only [e1, e2, hrec]
      · have e2 : readI32 ⟨s.data, s.pos + 4⟩ = .error .TruncatedStream := by
          unfold readI32
          rw [readU32_short ⟨s.data, s.pos + 4⟩ (show s.data.length < s.pos + 4 + 4 by omega)]
        rw [readEntries_succ]
        simp only [e1, e2]
    · rw [readEntries_succ, readU32_short s (by omega)]

lemma write_box_ok (b : CttsBox) (hfl : b.flags < 2 ^ 24) :
    b.write_box = .ok (wbBytes b, b.box_size) := by
  unfold CttsBox.write_box write_box_header_ext wbBytes
  rw [if_pos hfl]

lemma length_wbBytes (b : CttsBox) : (wbBytes b).length = 16 + 8 * b.entries.length := by
  simp only [wbBytes, List.length_append, length_u32be, length_entriesBytes]
  have h8 : (BoxHeader.write b.box_size).length = 8 := rfl
  omega

lemma box_size_eq (b : CttsBox) : b.box_size = 16 + 8 * b.entries.length := rfl

lemma read_box_wb (b : CttsBox) (hver : b.version < 2 ^ 8) (hfl : b.flags < 2 ^ 24)
    (hlen : b.entries.length < 2 ^ 32) (hval : ∀ e ∈ b.entries, e.Valid)
    (rest : List Nat) (sz : Nat) :
    CttsBox.read_box ⟨wbBytes b ++ rest, 8⟩ sz =
      if sz < 16 + 8 * b.entries.length then .error .SizeMismatch
      else .ok (b, ⟨wbBytes b ++ rest, sz⟩) := by
  set data := wbBytes b ++ rest with hdata
  have hd1 : data = BoxHeader.write b.box_size ++
      (u32be (b.version * 2 ^ 24 + b.flags) ++
        (u32be (b.entries.length % 2 ^ 32) ++ (entriesBytes b.entries ++ rest))) := by
    simp [hdata, wbBytes, List.append_assoc]
  have hp1 : (8 : Nat) = (BoxHeader.write b.box_size).length := rfl
  have hr1 := readU32_at data _ _ _ 8 hd1 hp1 (length_u32be _)
  rw [beVal_u32be _ (by omega)] at hr1
  have hext : read_box_header_ext ⟨data, 8⟩ = .ok (b.version, b.flags, ⟨data, 12⟩) := by
    unfold read_box_header_ext
    rw [hr1]
    have hv : (b.version * 2 ^ 24 + b.flags) / 2 ^ 24 = b.version := by omega
    have hf : (b.version * 2 ^ 24 + b.flags) % 2 ^ 24 = b.flags := by omega
    simp only [hv, hf]
  have hd2 : data = (BoxHeader.write b.box_size ++ u32be (b.version * 2 ^ 24 + b.flags)) ++
      (u32be (b.entries.length % 2 ^ 32) ++ (entriesBytes b.entries ++ rest)) := by
    simp [hdata, wbBytes, List.append_assoc]
  have hp2 : (12 : Nat) =
      (BoxHeader.write b.box_size ++ u32be (b.version * 2 ^ 24 + b.flags)).length := by
    simp [List.length_append, ← hp1, length_u32be]
  have hr2 := readU32_at data _ _ _ 12 hd2 hp2 (length_u32be _)
  rw [beVal_u32be _ (Nat.mod_lt _ (by norm_num)), Nat.mod_eq_of_lt hlen] at hr2
  have hd3 : data = (BoxHeader.write b.box_size ++ u32be (b.version * 2 ^ 24 + b.flags) ++
      u32be (b.entries.length % 2 ^ 32)) ++ (entriesBytes b.entries ++ rest) := by
    simp [hdata, wbBytes, List.append_assoc]
  have hp3 : (16 : Nat) = (BoxHeader.write b.box_size ++ u32be (b.version * 2 ^ 24 + b.flags) ++
      u32be (b.entries.length % 2 ^ 32)).length := by
    simp [List.length_append, ← hp1, length_u32be]
  have hr3 := readEntries_ok b.entries hval data _ _ 16 hd3 hp3
  by_cases hc : sz < 16 + 8 * b.entries.length
  all_goals
    simp [CttsBox.read_box, box_start, HEADER_SIZE, hext, hr2, hr3, skip_bytes_to, hc]

lemma read_box_wbBytes (b : CttsBox) (hver : b.version < 2 ^ 8) (hfl : b.flags < 2 ^ 24)
    (hlen : b.entries.length < 2 ^ 32) (hval : ∀ e ∈ b.entries, e.Valid)
    (rest : List Nat) (sz : Nat) (hsz : b.box_size ≤ sz) :
    CttsBox.read_box ⟨wbBytes b ++ rest, 8⟩ sz = .ok (b, ⟨wbBytes b ++ rest, sz⟩) := by
  rw [read_box_wb b hver hfl hlen hval rest sz,
    if_neg (by rw [box_size_eq] at hsz; omega)]

/-- The spec's concrete scenario: version 0, flags 0, entries `(1, 200)`
and `(2, -100)`. -/
def sampleBox : CttsBox := ⟨0, 0, [⟨1, 200⟩, ⟨2, -100⟩]⟩

/-- The 32 bytes `write_box` emits for `sampleBox`. -/
def sampleOut : List Nat :=
  [0, 0, 0, 32, 99, 116, 116, 115, 0, 0, 0, 0, 0, 0, 0, 2,
   0, 0, 0, 1, 0, 0, 0, 200, 0, 0, 0, 2, 255, 255, 255, 156]

/-- A one-entry table whose single entry has `sample_count = 0`. -/
def zeroCountBox : CttsBox := ⟨0, 0, [⟨0, 5⟩]⟩

/-! The claims. -/

/-- C1, counterexample: the claim quantifies over any `flags` value, but a
table whose flags occupy more than 24 bits cannot be written at all: the
extended-header writer rejects it with `FlagsOverflow`, so no byte buffer is
produced and reading back cannot yield the table. -/
theorem c1_roundtrip_cx :
    CttsBox.write_box ⟨0, 2 ^ 24, []⟩ = .error .FlagsOverflow ∧
      ¬ ∃ out sz, CttsBox.write_box ⟨0, 2 ^ 24, []⟩ = .ok (out, sz) := by
  refine ⟨rfl, ?_⟩
  rintro ⟨out, sz, h⟩
  rw [show CttsBox.write_box ⟨0, 2 ^ 24, []⟩ = .error .FlagsOverflow from rfl] at h
  exact Except.noConfusion h

/-- C1, amended: for every table whose fields fit the Rust field types
(`version` a `u8`, entry fields `u32`/`i32`), whose flags fit the 24-bit
flags field, and whose entry count fits the 4-byte count field, `write_box`
succeeds and feeding the emitted buffer back (box header consumed
externally, then `read_box` with the declared size) returns exactly the same
table: same version, same flags, same entries in the same order. -/
theorem c1_roundtrip (b : CttsBox) (hver : b.version < 2 ^ 8) (hfl : b.flags < 2 ^ 24)
    (hlen : b.entries.length < 2 ^ 32) (hval : ∀ e ∈ b.entries, e.Valid) :
    ∃ out, b.write_box = .ok (out, b.box_size) ∧
      CttsBox.read_box ⟨out, 8⟩ b.box_size = .ok (b, ⟨out, b.box_size⟩) := by
  refine ⟨wbBytes b, write_box_ok b hfl, ?_⟩
  simpa using read_box_wbBytes b hver hfl hlen hval [] b.box_size le_rfl

/-- Witness for C1 at the spec's concrete scenario. -/
theorem c1_roundtrip_witness :
    (sampleBox.version < 2 ^ 8 ∧ sampleBox.flags < 2 ^ 24 ∧
      sampleBox.entries.length < 2 ^ 32 ∧ ∀ e ∈ sampleBox.entries, e.Valid) ∧
    ∃ out, sampleBox.write_box = .ok (out, sampleBox.box_size) ∧
      CttsBox.read_box ⟨out, 8⟩ sampleBox.box_size = .ok (sampleBox, ⟨out, sampleBox.box_size⟩) :=
  ⟨⟨by decide, by decide, by decide, by decide⟩,
    c1_roundtrip sampleBox (by decide) (by decide) (by decide) (by decide)⟩

/-- C2: whenever `write_box` succeeds, the byte sequence it emitted has
exactly `box_size` bytes and the returned value is `box_size`. -/
theorem c2_size_accuracy (b : CttsBox) (out : List Nat) (sz : Nat)
    (hw : b.write_box = .ok (out, sz)) :
    out.length = b.box_size ∧ sz = b.box_size := by
  by_cases hfl : b.flags < 2 ^ 24
  · have h := (write_box_ok b hfl).symm.trans hw
    simp only [Except.ok.injEq, Prod.mk.injEq] at h
    obtain ⟨hout, hsz⟩ := h
    subst hout
    subst hsz
    exact ⟨by rw [length_wbBytes, box_size_eq], rfl⟩
  · exfalso
    unfold CttsBox.write_box write_box_header_ext at hw
    rw [if_neg hfl] at hw
    exact Except.noConfusion hw

/-- Witness for C2 at the spec's concrete scenario. -/
theorem c2_size_accuracy_witness :
    sampleBox.write_box = .ok (sampleOut, 32) ∧
      sampleOut.length = sampleBox.box_size ∧ 32 = sampleBox.box_size :=
  ⟨rfl, c2_size_accuracy sampleBox sampleOut 32 rfl⟩

/-- C3: `get_size` is a pure function of the table equal to
`HEADER_SIZE + HEADER_EXT_SIZE + 4 + 8 * entries.len()`, which is
`16 + 8 * entries.len()`; `box_size` forwards to it. -/
theorem c3_get_size_formula (b : CttsBox) :
    b.get_size = HEADER_SIZE + HEADER_EXT_SIZE + 4 + 8 * b.entries.length ∧
      b.box_size = b.get_size ∧ b.get_size = 16 + 8 * b.entries.length :=
  ⟨rfl, rfl, box_size_eq b⟩

/-- C4: a valid encoding truncated at any point `k` at or past the end of
the box header but strictly before the declared end (so inside the extended
header, the entry-count field, or the entry bodies) makes `read_box` fail
with `TruncatedStream`; no partial table is returned. -/
theorem c4_truncation (b : CttsBox) (hfl : b.flags < 2 ^ 24) (hlen : b.entries.length < 2 ^ 32)
    (k : Nat) (hk8 : 8 ≤ k) (hk : k < b.box_size) (out : List Nat) (sz : Nat)
    (hw : b.write_box = .ok (out, sz)) :
    CttsBox.read_box ⟨out.take k, 8⟩ sz = .error .TruncatedStream := by
  have h := (write_box_ok b hfl).symm.trans hw
  simp only [Except.ok.injEq, Prod.mk.injEq] at h
  obtain ⟨hout, hsz⟩ := h
  subst hout
  subst hsz
  rw [box_size_eq] at hk
  have hlenk : ((wbBytes b).take k).length = k := by
    rw [List.length_take, length_wbBytes]
    omega
  by_cases hA : k < 12
  · have hshort : readU32 ⟨(wbBytes b).take k, 8⟩ = .error .TruncatedStream :=
      readU32_short _ (show ((wbBytes b).take k).length < 8 + 4 by omega)
    have hext : read_box_header_ext ⟨(wbBytes b).take k, 8⟩ = .error .TruncatedStream := by
      unfold read_box_header_ext
      rw [hshort]
    simp [CttsBox.read_box, hext]
  · by_cases hB : k < 16
    · have hdecomp : (wbBytes b).take k = BoxHeader.write b.box_size ++
          (u32be (b.version * 2 ^ 24 + b.flags) ++
            (u32be (b.entries.length % 2 ^ 32)).take (k - 12)) := by
        unfold wbBytes
        rw [List.take_append_eq_append_take]
        rw [show (BoxHeader.write b.box_size ++ u32be (b.version * 2 ^ 24 + b.flags) ++
          u32be (b.entries.length % 2 ^ 32)).length = 16 from rfl]
        rw [Nat.sub_eq_zero_of_le (by omega), List.take_zero, List.append_nil]
        rw [take_append_ge _ _ k (by
          rw [show (BoxHeader.write b.box_size ++
            u32be (b.version * 2 ^ 24 + b.flags)).length = 12 from rfl]
          omega)]
        rw [show (BoxHeader.write b.box_size ++
          u32be (b.version * 2 ^ 24 + b.flags)).length = 12 from rfl]
        simp [List.append_assoc]
      have hr1 := readU32_at ((wbBytes b).take k) _ _ _ 8 hdecomp rfl (length_u32be _)
      have hcnt : readU32 ⟨(wbBytes b).take k, 12⟩ = .error .TruncatedStream :=
        readU32_short _ (show ((wbBytes b).take k).length < 12 + 4 by omega)
      simp [CttsBox.read_box, read_box_header_ext, hr1, hcnt]
    · have hdecomp : (wbBytes b).take k =
          (BoxHeader.write b.box_size ++ u32be (b.version * 2 ^ 24 + b.flags)) ++
            (u32be (b.entries.length % 2 ^ 32) ++ (entriesBytes b.entries).take (k - 16)) := by
        unfold wbBytes
        rw [take_append_ge _ _ k (by
          rw [show (BoxHeader.write b.box_size ++ u32be (b.version * 2 ^ 24 + b.flags) ++
            u32be (b.entries.length % 2 ^ 32)).length = 16 from rfl]
          omega)]
        rw [show (BoxHeader.write b.box_size ++ u32be (b.version * 2 ^ 24 + b.flags) ++
          u32be (b.entries.length % 2 ^ 32)).length = 16 from rfl]
        simp [List.append_assoc]
      have hd1 : (wbBytes b).take k = BoxHeader.write b.box_size ++
          (u32be (b.version * 2 ^ 24 + b.flags) ++
            (u32be (b.entries.length % 2 ^ 32) ++ (entriesBytes b.entries).take (k - 16))) := by
        rw [hdecomp]
        simp [List.append_assoc]
      have hr1 := readU32_at ((wbBytes b).take k) _ _ _ 8 hd1 rfl (length_u32be _)
      have hr2 := readU32_at ((wbBytes b).take k) _ _ _ 12 hdecomp
        (by rfl) (length_u32be _)
      rw [beVal_u32be _ (Nat.mod_lt _ (by norm_num)), Nat.mod_eq_of_lt hlen] at hr2
      have hrE : readEntries b.entries.length ⟨(wbBytes b).take k, 16⟩ =
          .error .TruncatedStream :=
        readEntries_short _ _ (by omega)
          (show ((wbBytes b).take k).length < 16 + 8 * b.entries.length by omega)
      simp [CttsBox.read_box, read_box_header_ext, hr1, hr2, hrE]

/-- Witness for C4: the spec's sample encoding cut to 20 bytes, inside the
entry bodies. -/
theorem c4_truncation_witness :
    (sampleBox.flags < 2 ^ 24 ∧ sampleBox.entries.length < 2 ^ 32 ∧ (8 : Nat) ≤ 20 ∧
      20 < sampleBox.box_size ∧ sampleBox.write_box = .ok (sampleOut, 32)) ∧
    CttsBox.read_box ⟨sampleOut.take 20, 8⟩ 32 = .error .TruncatedStream :=
  ⟨⟨by decide, by decide, by decide, by decide, rfl⟩,
    c4_truncation sampleBox (by decide) (by decide) 20 (by decide) (by decide) sampleOut 32 rfl⟩

/-- C5: a box declaring any size at least the minimum (extra trailing
padding bytes after the entry table) parses successfully, leaves the cursor
at the declared end, and yields the same table as the minimally-sized
encoding of the same entries. -/
theorem c5_skip_tolerance (b : CttsBox) (hver : b.version < 2 ^ 8) (hfl : b.flags < 2 ^ 24)
    (hlen : b.entries.length < 2 ^ 32) (hval : ∀ e ∈ b.entries, e.Valid) (pad : List Nat) :
    ∃ out, b.write_box = .ok (out, b.box_size) ∧
      ∃ T fin, CttsBox.read_box ⟨out ++ pad, 8⟩ (b.box_size + pad.length) = .ok (T, fin) ∧
        fin.pos = b.box_size + pad.length ∧
        CttsBox.read_box ⟨out, 8⟩ b.box_size = .ok (T, ⟨out, b.box_size⟩) := by
  refine ⟨wbBytes b, write_box_ok b hfl, b, ⟨wbBytes b ++ pad, b.box_size + pad.length⟩,
    read_box_wbBytes b hver hfl hlen hval pad _ (by omega), rfl, ?_⟩
  simpa using read_box_wbBytes b hver hfl hlen hval [] b.box_size le_rfl

/-- Witness for C5: the sample box with three bytes of trailing padding. -/
theorem c5_skip_tolerance_witness :
    (sampleBox.version < 2 ^ 8 ∧ sampleBox.flags < 2 ^ 24 ∧ sampleBox.entries.length < 2 ^ 32 ∧
      ∀ e ∈ sampleBox.entries, e.Valid) ∧
    ∃ out, sampleBox.write_box = .ok (out, sampleBox.box_size) ∧
      ∃ T fin, CttsBox.read_box ⟨out ++ [1, 2, 3], 8⟩
          (sampleBox.box_size + ([1, 2, 3] : List Nat).length) = .ok (T, fin) ∧
        fin.pos = sampleBox.box_size + ([1, 2, 3] : List Nat).length ∧
        CttsBox.read_box ⟨out, 8⟩ sampleBox.box_size = .ok (T, ⟨out, sampleBox.box_size⟩) :=
  ⟨⟨by decide, by decide, by decide, by decide⟩,
    c5_skip_tolerance sampleBox (by decide) (by decide) (by decide) (by decide) [1, 2, 3]⟩

/-- C6: every `sample_offset` in the signed 32-bit range round-trips through
`write_box` and `read_box` to exactly the same signed value, not its
unsigned bit-pattern reinterpretation. -/
theorem c6_negative_offsets (c : Nat) (o : Int) (hc : c < 2 ^ 32)
    (h1 : -2 ^ 31 ≤ o) (h2 : o < 2 ^ 31) :
    ∃ out, (CttsBox.mk 0 0 [⟨c, o⟩]).write_box = .ok (out, 24) ∧
      CttsBox.read_box ⟨out, 8⟩ 24 = .ok (CttsBox.mk 0 0 [⟨c, o⟩], ⟨out, 24⟩) := by
  have hval : ∀ e ∈ (CttsBox.mk 0 0 [⟨c, o⟩]).entries, e.Valid := by
    intro e he
    simp only [List.mem_singleton] at he
    subst he
    exact ⟨hc, h1, h2⟩
  rw [show (24 : Nat) = (CttsBox.mk 0 0 [⟨c, o⟩]).box_size from rfl]
  refine ⟨wbBytes _, write_box_ok _ (by norm_num), ?_⟩
  simpa using read_box_wbBytes (CttsBox.mk 0 0 [⟨c, o⟩]) (by norm_num) (by norm_num)
    (by norm_num) hval [] _ le_rfl

/-- Witness for C6 at the spec's example entry `(2, -100)`. -/
theorem c6_negative_offsets_witness :
    ((2 : Nat) < 2 ^ 32 ∧ -2 ^ 31 ≤ (-100 : Int) ∧ (-100 : Int) < 2 ^ 31) ∧
    ∃ out, (CttsBox.mk 0 0 [⟨2, -100⟩]).write_box = .ok (out, 24) ∧
      CttsBox.read_box ⟨out, 8⟩ 24 = .ok (CttsBox.mk 0 0 [⟨2, -100⟩], ⟨out, 24⟩) :=
  ⟨⟨by decide, by decide, by decide⟩,
    c6_negative_offsets 2 (-100) (by decide) (by decide) (by decide)⟩

/-- C7: when the extended header, entry count and entry table consume more
bytes than the declared size covers (the post-parse skip target lies before
the cursor), `read_box` fails with `SizeMismatch` instead of continuing or
seeking backward. -/
theorem c7_overread (b : CttsBox) (hver : b.version < 2 ^ 8) (hfl : b.flags < 2 ^ 24)
    (hlen : b.entries.length < 2 ^ 32) (hval : ∀ e ∈ b.entries, e.Valid)
    (sz : Nat) (hsz : sz < 16 + 8 * b.entries.length) :
    ∃ out, b.write_box = .ok (out, b.box_size) ∧
      CttsBox.read_box ⟨out, 8⟩ sz = .error .SizeMismatch := by
  refine ⟨wbBytes b, write_box_ok b hfl, ?_⟩
  have h := read_box_wb b hver hfl hlen hval [] sz
  rw [if_pos hsz] at h
  simpa using h

/-- Witness for C7: the sample encoding read with a declared size of 20,
smaller than the 32 bytes its payload consumes. -/
theorem c7_overread_witness :
    (sampleBox.version < 2 ^ 8 ∧ sampleBox.flags < 2 ^ 24 ∧ sampleBox.entries.length < 2 ^ 32 ∧
      (∀ e ∈ sampleBox.entries, e.Valid) ∧ (20 : Nat) < 16 + 8 * sampleBox.entries.length) ∧
    ∃ out, sampleBox.write_box = .ok (out, sampleBox.box_size) ∧
      CttsBox.read_box ⟨out, 8⟩ 20 = .error .SizeMismatch :=
  ⟨⟨by decide, by decide, by decide, by decide, by decide⟩,
    c7_overread sampleBox (by decide) (by decide) (by decide) (by decide) 20 (by decide)⟩

/-- C8: `summary` always succeeds and returns exactly the string
`entries_count=<N>` with `N` the decimal entry count, for every table
whatever its version, flags, or entry contents. -/
theorem c8_summary (b : CttsBox) :
    b.summary = .ok ("entries_count=" ++ Nat.repr b.entries.length) := rfl

/-- C9: an entry with `sample_count = 0` is not rejected: the encoding of
any table containing such an entry parses successfully and the returned
table carries that entry, with count 0, at its original position. -/
theorem c9_zero_sample_count (b : CttsBox) (hver : b.version < 2 ^ 8) (hfl : b.flags < 2 ^ 24)
    (hlen : b.entries.length < 2 ^ 32) (hval : ∀ e ∈ b.entries, e.Valid)
    (i : Nat) (hi : i < b.entries.length) (h0 : (b.entries.get ⟨i, hi⟩).sample_count = 0) :
    ∃ out, b.write_box = .ok (out, b.box_size) ∧
      CttsBox.read_box ⟨out, 8⟩ b.box_size = .ok (b, ⟨out, b.box_size⟩) ∧
      (b.entries.get ⟨i, hi⟩).sample_count = 0 := by
  refine ⟨wbBytes b, write_box_ok b hfl, ?_, h0⟩
  simpa using read_box_wbBytes b hver hfl hlen hval [] b.box_size le_rfl

/-- Witness for C9 on a one-entry table whose entry has count 0. -/
theorem c9_zero_sample_count_witness :
    (zeroCountBox.version < 2 ^ 8 ∧ zeroCountBox.flags < 2 ^ 24 ∧
      zeroCountBox.entries.length < 2 ^ 32 ∧ (∀ e ∈ zeroCountBox.entries, e.Valid) ∧
      (0 : Nat) < zeroCountBox.entries.length ∧
      (zeroCountBox.entries.get ⟨0, by decide⟩).sample_count = 0) ∧
    ∃ out, zeroCountBox.write_box = .ok (out, zeroCountBox.box_size) ∧
      CttsBox.read_box ⟨out, 8⟩ zeroCountBox.box_size =
        .ok (zeroCountBox, ⟨out, zeroCountBox.box_size⟩) ∧
      (zeroCountBox.entries.get ⟨0, by decide⟩).sample_count = 0 :=
  ⟨⟨by decide, by decide, by decide, by decide, by decide, by decide⟩,
    c9_zero_sample_count zeroCountBox (by decide) (by decide) (by decide) (by decide)
      0 (by decide) (by decide)⟩

/-- C10: a successful `write_box` stores `entries.len() as u32`, i.e. the
length modulo `2 ^ 32`, in the 4-byte count field at offset 12, while still
emitting every entry (8 bytes each, so the output is `16 + 8 * len` bytes);
the stored count equals the number of written entries exactly when the
length is below `2 ^ 32`. -/
theorem c10_count_field (b : CttsBox) (hfl : b.flags < 2 ^ 24) (out : List Nat) (sz : Nat)
    (hw : b.write_box = .ok (out, sz)) :
    (out.drop 12).take 4 = u32be (b.entries.length % 2 ^ 32) ∧
      beVal ((out.drop 12).take 4) = b.entries.length % 2 ^ 32 ∧
      out.drop 16 = entriesBytes b.entries ∧
      out.length = 16 + 8 * b.entries.length ∧
      (b.entries.length % 2 ^ 32 = b.entries.length ↔ b.entries.length < 2 ^ 32) := by
  have h := (write_box_ok b hfl).symm.trans hw
  simp only [Except.ok.injEq, Prod.mk.injEq] at h
  obtain ⟨hout, hsz⟩ := h
  subst hout
  have hd12 : (wbBytes b).drop 12 =
      u32be (b.entries.length % 2 ^ 32) ++ entriesBytes b.entries := by
    have hW : wbBytes b = (BoxHeader.write b.box_size ++ u32be (b.version * 2 ^ 24 + b.flags)) ++
        (u32be (b.entries.length % 2 ^ 32) ++ entriesBytes b.entries) := by
      simp [wbBytes, List.append_assoc]
    rw [hW, show (12 : Nat) = (BoxHeader.write b.box_size ++
      u32be (b.version * 2 ^ 24 + b.flags)).length from rfl, List.drop_left]
  have ht4 : (u32be (b.entries.length % 2 ^ 32) ++ entriesBytes b.entries).take 4 =
      u32be (b.entries.length % 2 ^ 32) := by
    rw [show (4 : Nat) = (u32be (b.entries.length % 2 ^ 32)).length from rfl, List.take_left]
  have hd16 : (wbBytes b).drop 16 = entriesBytes b.entries := by
    have hW : wbBytes b = (BoxHeader.write b.box_size ++ u32be (b.version * 2 ^ 24 + b.flags) ++
        u32be (b.entries.length % 2 ^ 32)) ++ entriesBytes b.entries := by
      simp [wbBytes, List.append_assoc]
    rw [hW, show (16 : Nat) = (BoxHeader.write b.box_size ++ u32be (b.version * 2 ^ 24 + b.flags) ++
      u32be (b.entries.length % 2 ^ 32)).length from rfl, List.drop_left]
  refine ⟨by rw [hd12, ht4], by rw [hd12, ht4, beVal_u32be _ (Nat.mod_lt _ (by norm_num))],
    hd16, length_wbBytes b, ?_, Nat.mod_eq_of_lt⟩
  intro h
  rw [← h]
  exact Nat.mod_lt _ (by norm_num)

/-- Witness for C10 at the spec's concrete scenario. -/
theorem c10_count_field_witness :
    (sampleBox.flags < 2 ^ 24 ∧ sampleBox.write_box = .ok (sampleOut, 32)) ∧
    ((sampleOut.drop 12).take 4 = u32be (sampleBox.entries.length % 2 ^ 32) ∧
      beVal ((sampleOut.drop 12).take 4) = sampleBox.entries.length % 2 ^ 32 ∧
      sampleOut.drop 16 = entriesBytes sampleBox.entries ∧
      sampleOut.length = 16 + 8 * sampleBox.entries.length ∧
      (sampleBox.entries.length % 2 ^ 32 = sampleBox.entries.length ↔
        sampleBox.entries.length < 2 ^ 32)) :=
  ⟨⟨by decide, rfl⟩, c10_count_field sampleBox (by decide) sampleOut 32 rfl⟩

end Ctts
